import Mathlib

/-!
Verification development for the EVE Frontier selective type extractor
(`extract_selective.py`), centred on the `DependencyResolver` class.

Modelling conventions (shallow embedding):
* Python dicts keyed by stringified integer ids are modelled as association
  lists `List (Nat × α)`; `d[k] = v` is `dictSet`, `d.get(k)` / `k in d` are
  `dictGet?`.  All dict keys appearing in the resolver's data are numeric, so
  the `str(tid)` / `int(tid_str)` conversions of the source collapse away
  (the `isdigit()` guard over ship keys is vacuously true in this model).
* Python sets are modelled as duplicate-free lists in insertion order:
  `set.add` is `setAdd`, `set.update` is `setUnion`.  Iteration over a set
  (`for x in s`) is modelled as iteration over that list; the source's set
  iteration order is unspecified, and no property proved here depends on it.
* JSON records are modelled as structures holding exactly the fields the
  resolver reads; absent keys are `Option.none` and `dict.get` defaults are
  `Option.getD`.  Remaining record fields are never inspected by the code
  under study, so records are carried opaquely through exports.
* File loading (`_load_data`) is I/O performed before the logic under study;
  `mkResolver` therefore receives the four loaded mappings directly and then
  runs `_build_dependency_graph` and `_categorize_types` exactly as
  `__init__` does.
* Numeric dogma attribute values are floats in the source; they are carried
  opaquely (never computed with), modelled here as `Int`.
-/

/-- Lookup in an association list, mirroring Python `d.get(k)` / `d[k]`. -/
def dictGet? {α : Type} : List (Nat × α) → Nat → Option α
  | [], _ => none
  | (k, v) :: rest, key => if key = k then some v else dictGet? rest key

/-- Python dict assignment `d[k] = v`: overwrite the entry in place if the
key is present, otherwise append a new entry. -/
def dictSet {α : Type} : List (Nat × α) → Nat → α → List (Nat × α)
  | [], key, v => [(key, v)]
  | (k, w) :: rest, key, v =>
      if key = k then (key, v) :: rest else (k, w) :: dictSet rest key v

/-- The keys of an association list (Python `d.keys()`). -/
def dictKeys {α : Type} (m : List (Nat × α)) : List Nat :=
  m.map Prod.fst

/-- Python `set.add`: append the element unless already present. -/
def setAdd (s : List Nat) (x : Nat) : List Nat :=
  if x ∈ s then s else s ++ [x]

/-- Python `set.update`: add every element of the second collection. -/
def setUnion (s : List Nat) (l : List Nat) : List Nat :=
  l.foldl setAdd s

/-- Boolean test that `pat` is a leading segment of `s`. -/
def charsLead : List Char → List Char → Bool
  | [], _ => true
  | _ :: _, [] => false
  | a :: as, b :: bs => a == b && charsLead as bs

/-- Boolean substring containment on character lists. -/
def charsSub (pat : List Char) : List Char → Bool
  | [] => charsLead pat []
  | b :: bs => charsLead pat (b :: bs) || charsSub pat bs

/-- Python `kw in name`: case-sensitive substring containment. -/
def strHas (name kw : String) : Bool :=
  charsSub kw.data name.data

/-- Python `s.lower()`, at the level of character lists. -/
def lowerChars (s : String) : List Char :=
  s.data.map Char.toLower

/-- An entry of a blueprint activity's `materials` / `products` list
(`{typeID, quantity}`). -/
structure ItemRef where
  typeID : Nat
  quantity : Nat
  deriving DecidableEq

/-- One named blueprint activity with its material and product lists. -/
structure Activity where
  materials : List ItemRef
  products : List ItemRef
  deriving DecidableEq

/-- A blueprint record: the `activities` mapping (activity name to
activity); a blueprint with no `activities` key has the empty list. -/
structure Blueprint where
  activities : List (String × Activity)
  deriving DecidableEq

/-- A type record, holding the fields the resolver reads. -/
structure TypeRecord where
  typeName : Option String
  groupID : Option Nat
  deriving DecidableEq

/-- A ship record, holding the fields the resolver reads. -/
structure ShipRecord where
  typeName : Option String
  groupID : Option Nat
  groupName : Option String
  deriving DecidableEq

/-- One dogma attribute record `{attributeID, value, displayName, unit}`. -/
structure DogmaAttr where
  attributeID : Nat
  value : Int
  displayName : String
  unitName : String
  deriving DecidableEq

/-- A type's dogma attribute bag: attribute name to attribute record. -/
abbrev DogmaBag := List (String × DogmaAttr)

/-- The eight categories of the resolver's taxonomy. -/
inductive Category where
  | ships
  | modules
  | ammo
  | materials
  | components
  | blueprints
  | ores
  | fuel
  deriving DecidableEq

/-- The fixed ship group ids (Frigate, Cruiser, Shuttle, Corvette,
Industrial, Destroyer). -/
def shipGroupIds : List Nat := [25, 26, 31, 237, 419, 420]

/-- Keywords of the ores/minerals rule. -/
def oreKeywords : List String :=
  ["Ore", "Mineral", "Young Crude", "Feral Echo", "Salvaged", "Aestasium"]

/-- Keywords of the fuel rule. -/
def fuelKeywords : List String := ["Fuel", "SOF", "Smart Fuel"]

/-- Keywords of the ammo/charges rule. -/
def ammoKeywords : List String := ["Charge", "Missile", "Ammo", "Round"]

/-- Keywords of the weapons rule. -/
def weaponKeywords : List String :=
  ["Disintegrator", "Beam", "Torpedo", "Launcher", "Turret", "Cannon",
   "Blaster", "Railgun", "Artillery"]

/-- Keywords of the shields/defense rule. -/
def defenseKeywords : List String :=
  ["Field Array", "Shield", "Armor", "Hull Repair", "Hardener", "Repairer",
   "Plates"]

/-- Keywords of the propulsion rule. -/
def propulsionKeywords : List String :=
  ["Afterburner", "Microwarpdrive", "MWD", "Engine", "Propulsion", "Thruster"]

/-- Keywords of the electronic/utility rule. -/
def electronicKeywords : List String :=
  ["Sensor", "Scanner", "Scrambler", "Disruptor", "Web", "ECM", "ECCM",
   "Tracking", "Target"]

/-- Keywords of the mining/industrial rule. -/
def miningKeywords : List String :=
  ["Mining Lens", "Mining Gel", "Miner", "Strip", "Harvester", "Tractor",
   "Cargo Grid"]

/-- The mutable state built by `_build_dependency_graph`: the two dependency
indexes, the derived products index, and the categories mapping (the graph
pass adds every blueprint id to `categories['blueprints']`). -/
structure GraphState where
  type_to_blueprint : List (Nat × Nat)
  blueprint_materials : List (Nat × List Nat)
  blueprint_products : List (Nat × List Nat)
  cats : Category → List Nat

/-- Add a type id to one category's set, leaving the others unchanged. -/
def addToCat (cats : Category → List Nat) (c : Category) (tid : Nat) :
    Category → List Nat :=
  fun c' => if c' = c then setAdd (cats c') tid else cats c'

/-- Add an element to the set stored under a key of an association list
(Python `d[k].add(v)`; the key is always present when this runs). -/
def dictAddToSet (m : List (Nat × List Nat)) (key v : Nat) :
    List (Nat × List Nat) :=
  m.map (fun p => if p.1 = key then (p.1, setAdd p.2 v) else p)

/-- The body of `_build_dependency_graph`'s inner activity loop: map each
product to this blueprint, initialise the material/product sets for the
blueprint if absent, then union in this activity's materials and products. -/
def processActivity (bp_id : Nat) (st : GraphState) (act : Activity) :
    GraphState :=
  let ttb1 :=
    act.products.foldl (fun m pr => dictSet m pr.typeID bp_id)
      st.type_to_blueprint
  let st1 := { st with type_to_blueprint := ttb1 }
  let st2 :=
    if (dictGet? st1.blueprint_materials bp_id).isSome then st1
    else
      { st1 with
        blueprint_materials := st1.blueprint_materials ++ [(bp_id, [])],
        blueprint_products := st1.blueprint_products ++ [(bp_id, [])] }
  let mats3 :=
    act.materials.foldl (fun m mt => dictAddToSet m bp_id mt.typeID)
      st2.blueprint_materials
  let st3 := { st2 with blueprint_materials := mats3 }
  let prods4 :=
    act.products.foldl (fun m pr => dictAddToSet m bp_id pr.typeID)
      st3.blueprint_products
  { st3 with blueprint_products := prods4 }

/-- The body of `_build_dependency_graph`'s outer loop: record the blueprint
id in the blueprints category, then process each activity. -/
def processBlueprint (st : GraphState) (e : Nat × Blueprint) : GraphState :=
  let st1 := { st with cats := addToCat st.cats Category.blueprints e.1 }
  e.2.activities.foldl (fun s a => processActivity e.1 s a.2) st1

/-- `_build_dependency_graph`: a single pass over the loaded blueprints. -/
def buildGraph (blueprints : List (Nat × Blueprint)) : GraphState :=
  blueprints.foldl processBlueprint
    { type_to_blueprint := [], blueprint_materials := [],
      blueprint_products := [], cats := fun _ => [] }

/-- The classification of one type record by `_categorize_types`' rule
chain: ship group, then the keyword rules in source order, then
craftable/raw fallback.  First match wins. -/
def categorizeOne (ttb : List (Nat × Nat)) (tid : Nat) (td : TypeRecord) :
    Category :=
  let group_id := td.groupID.getD 0
  let type_name := td.typeName.getD ""
  if group_id ∈ shipGroupIds then Category.ships
  else if strHas type_name "Blueprint" then Category.blueprints
  else if oreKeywords.any (fun x => strHas type_name x) then Category.ores
  else if fuelKeywords.any (fun x => strHas type_name x) then Category.fuel
  else if ammoKeywords.any (fun x => strHas type_name x) then Category.ammo
  else if weaponKeywords.any (fun x => strHas type_name x) then
    Category.modules
  else if defenseKeywords.any (fun x => strHas type_name x) then
    Category.modules
  else if propulsionKeywords.any (fun x => strHas type_name x) then
    Category.modules
  else if electronicKeywords.any (fun x => strHas type_name x) then
    Category.modules
  else if miningKeywords.any (fun x => strHas type_name x) then
    Category.modules
  else if (dictGet? ttb tid).isSome then Category.components
  else Category.materials

/-- The loop of `_categorize_types` over the types mapping: each type id is
added to the set of its classified category. -/
def typesCatPass (ttb : List (Nat × Nat)) (cats : Category → List Nat)
    (types : List (Nat × TypeRecord)) : Category → List Nat :=
  types.foldl (fun c e => addToCat c (categorizeOne ttb e.1 e.2) e.1) cats

/-- The post-pass of `_categorize_types`: every id present in the loaded
ships mapping is forced into the ships category. -/
def shipsCatPass (cats : Category → List Nat)
    (ships : List (Nat × ShipRecord)) : Category → List Nat :=
  ships.foldl (fun c e => addToCat c Category.ships e.1) cats

/-- The fully constructed resolver: the four loaded mappings, the dependency
graph, and the category sets. -/
structure Resolver where
  types : List (Nat × TypeRecord)
  ships : List (Nat × ShipRecord)
  blueprints : List (Nat × Blueprint)
  all_dogma : List (Nat × DogmaBag)
  type_to_blueprint : List (Nat × Nat)
  blueprint_materials : List (Nat × List Nat)
  blueprint_products : List (Nat × List Nat)
  categories : Category → List Nat

/-- `DependencyResolver.__init__` after `_load_data`: build the dependency
graph, then categorize every loaded type. -/
def mkResolver (types : List (Nat × TypeRecord))
    (ships : List (Nat × ShipRecord)) (blueprints : List (Nat × Blueprint))
    (all_dogma : List (Nat × DogmaBag)) : Resolver :=
  let g := buildGraph blueprints
  let cats := shipsCatPass (typesCatPass g.type_to_blueprint g.cats types) ships
  { types := types, ships := ships, blueprints := blueprints,
    all_dogma := all_dogma,
    type_to_blueprint := g.type_to_blueprint,
    blueprint_materials := g.blueprint_materials,
    blueprint_products := g.blueprint_products,
    categories := cats }

/-- The body of `get_dependencies`' material loop: add the material to the
dependency set, recurse on it (threading the shared visited set), and union
the sub-dependencies in.  The recursive call is passed in as `g`. -/
def depsStep (g : Nat → List Nat → List Nat × List Nat)
    (acc : List Nat × List Nat) (mat_id : Nat) : List Nat × List Nat :=
  let d := setAdd acc.1 mat_id
  let res := g mat_id acc.2
  (setUnion d res.1, res.2)

/-- `get_dependencies(type_id, depth, visited)`, returning the dependency
set together with the final visited set (the source mutates one shared
`visited` set across the whole call tree).  Recursion is on the explicit
depth bound, exactly the guard `depth <= 0` of the source. -/
def getDepsAux (r : Resolver) : Nat → Nat → List Nat → List Nat × List Nat
  | 0, _, visited => ([], visited)
  | depth + 1, type_id, visited =>
    if type_id ∈ visited then ([], visited)
    else
      let visited1 := setAdd visited type_id
      match dictGet? r.type_to_blueprint type_id with
      | none => ([type_id], visited1)
      | some bp_id =>
        let mats := (dictGet? r.blueprint_materials bp_id).getD []
        mats.foldl (depsStep (fun m w => getDepsAux r depth m w))
          (setAdd [type_id] bp_id, visited1)

/-- `get_dependencies(type_id, depth)` with a fresh visited set; the
source's default depth is 10. -/
def get_dependencies (r : Resolver) (type_id : Nat) (depth : Nat) :
    List Nat :=
  (getDepsAux r depth type_id []).1

/-- `_get_type_name`: resolve a display name from ships, then types, then
the placeholder.  Ship values are always records in this model, so the
source's `isinstance(..., dict)` guard is always true. -/
def getTypeName (r : Resolver) (type_id : Nat) : String :=
  match dictGet? r.ships type_id with
  | some sd => sd.typeName.getD ("Type " ++ toString type_id)
  | none =>
    match dictGet? r.types type_id with
    | some td => td.typeName.getD ("Type " ++ toString type_id)
    | none => "Type " ++ toString type_id

/-- Where a search hit came from (the `source` field of a result). -/
inductive Source where
  | types
  | ships
  deriving DecidableEq

/-- One entry of a `search_types` result list.  Entries from the types loop
carry no `groupName` key, modelled as `none`. -/
structure SearchResult where
  typeID : Nat
  typeName : String
  groupID : Option Nat
  groupName : Option String
  source : Source
  deriving DecidableEq

/-- The match test of `search_types`: the name is non-empty and the
lowercased query occurs in the lowercased name. -/
def nameMatches (ql : List Char) (name : String) : Bool :=
  !(name == "") && charsSub ql (lowerChars name)

/-- The search entry built from a types-mapping item (no `groupName` key). -/
def typesEntry (e : Nat × TypeRecord) : SearchResult :=
  ⟨e.1, e.2.typeName.getD "", e.2.groupID, none, Source.types⟩

/-- The search entry built from a ships-mapping item. -/
def shipsEntry (e : Nat × ShipRecord) : SearchResult :=
  ⟨e.1, e.2.typeName.getD "", e.2.groupID, e.2.groupName, Source.ships⟩

/-- Body of `search_types`' first loop: append the entry on a name match. -/
def typesSearchStep (ql : List Char) (acc : List SearchResult)
    (e : Nat × TypeRecord) : List SearchResult :=
  if nameMatches ql (e.2.typeName.getD "") then acc ++ [typesEntry e]
  else acc

/-- Body of `search_types`' second loop: append the ship entry on a name
match when its type id is not already among the results. -/
def shipsSearchStep (ql : List Char) (acc : List SearchResult)
    (e : Nat × ShipRecord) : List SearchResult :=
  if nameMatches ql (e.2.typeName.getD "") ∧ ∀ x ∈ acc, x.typeID ≠ e.1 then
    acc ++ [shipsEntry e]
  else acc

/-- The first loop of `search_types`: collect matching entries from the
types mapping. -/
def searchTypesLoop (r : Resolver) (ql : List Char) : List SearchResult :=
  r.types.foldl (typesSearchStep ql) []

/-- The second loop of `search_types`: append matching ship entries whose
type id is not already present in the accumulated results. -/
def searchShipsLoop (r : Resolver) (ql : List Char)
    (init : List SearchResult) : List SearchResult :=
  r.ships.foldl (shipsSearchStep ql) init

/-- Stable insertion of an element into a list: after every element that
compares less-or-equal, before the first strictly greater one. -/
def insSorted {α : Type} (le : α → α → Bool) (x : α) : List α → List α
  | [] => [x]
  | y :: ys => if le y x then y :: insSorted le x ys else x :: y :: ys

/-- Stable sort by repeated insertion, modelling Python's stable `sorted`. -/
def sortBy {α : Type} (le : α → α → Bool) (l : List α) : List α :=
  l.foldl (fun acc x => insSorted le x acc) []

/-- The comparison key of `search_types`' final `sorted` call. -/
def byTypeName (a b : SearchResult) : Bool :=
  a.typeName ≤ b.typeName

/-- `search_types(query)`: both loops, then sort by `typeName`. -/
def search_types (r : Resolver) (query : String) : List SearchResult :=
  let ql := lowerChars query
  sortBy byTypeName (searchShipsLoop r ql (searchTypesLoop r ql))

/-- The payload assembled by `export_selection` (its `meta` fields inlined;
the JSON file write is external I/O). -/
structure Payload where
  selected_count : Nat
  total_with_dependencies : Nat
  include_dependencies : Bool
  types : List (Nat × TypeRecord)
  ships : List (Nat × ShipRecord)
  blueprints : List (Nat × Blueprint)
  deriving DecidableEq

/-- First statement of `export_selection`'s loop body: copy the ship record
into the payload when the selected id is a loaded ship. -/
def shipsStepPart (r : Resolver) (p : Payload) (tid : Nat) : Payload :=
  match dictGet? r.ships tid with
  | some sd => { p with ships := dictSet p.ships tid sd }
  | none => p

/-- Second statement of the loop body: copy the type record when present. -/
def typesStepPart (r : Resolver) (p : Payload) (tid : Nat) : Payload :=
  match dictGet? r.types tid with
  | some td => { p with types := dictSet p.types tid td }
  | none => p

/-- Third statement of the loop body: when the type has a producing
blueprint, copy that blueprint — `self.blueprints[bp_id]` is a bare indexing
that raises `KeyError` when absent, modelled as `none`. -/
def bpStepPart (r : Resolver) (p : Payload) (tid : Nat) : Option Payload :=
  match dictGet? r.type_to_blueprint tid with
  | none => some p
  | some bp_id =>
    match dictGet? r.blueprints bp_id with
    | some bp => some { p with blueprints := dictSet p.blueprints bp_id bp }
    | none => none

/-- The body of `export_selection`'s loop over the selected set: the three
statements in source order. -/
def exportStep (r : Resolver) (p : Payload) (tid : Nat) : Option Payload :=
  bpStepPart r (typesStepPart r (shipsStepPart r p tid) tid) tid

/-- `export_selection(type_ids, include_dependencies)`: build the selected
set (expanded through `get_dependencies` at the default depth 10 when
requested), then assemble the payload; `none` models the `KeyError` path. -/
def export_selection (r : Resolver) (type_ids : List Nat)
    (include_dependencies : Bool) : Option Payload :=
  let selected0 := type_ids.foldl setAdd []
  let selected :=
    if include_dependencies then
      type_ids.foldl (fun s tid => setUnion s (get_dependencies r tid 10))
        selected0
    else selected0
  selected.foldl (fun op tid => op.bind (fun p => exportStep r p tid))
    (some { selected_count := type_ids.length,
            total_with_dependencies := selected.length,
            include_dependencies := include_dependencies,
            types := [], ships := [], blueprints := [] })

/-- The eight valid category names (the keys of `self.categories`). -/
def categoryNames : List String :=
  ["ships", "modules", "ammo", "materials", "components", "blueprints",
   "ores", "fuel"]

/-- Resolve a category-name string to a `Category`; `none` is the source's
`category not in self.categories` branch. -/
def catOfString (s : String) : Option Category :=
  if s = "ships" then some Category.ships
  else if s = "modules" then some Category.modules
  else if s = "ammo" then some Category.ammo
  else if s = "materials" then some Category.materials
  else if s = "components" then some Category.components
  else if s = "blueprints" then some Category.blueprints
  else if s = "ores" then some Category.ores
  else if s = "fuel" then some Category.fuel
  else none

/-- One entry of a `list_category` result. -/
structure CatItem where
  typeID : Nat
  typeName : String
  deriving DecidableEq

/-- The comparison key of `list_category`'s `sorted` call. -/
def byItemName (a b : CatItem) : Bool :=
  a.typeName ≤ b.typeName

/-- `list_category(category)`: empty list for an unknown name, otherwise
the category's members with resolved names, sorted by name. -/
def list_category (r : Resolver) (category : String) : List CatItem :=
  match catOfString category with
  | none => []
  | some c =>
    let items := (r.categories c).map (fun tid => ⟨tid, getTypeName r tid⟩)
    sortBy byItemName items

/-- The category-specific export payloads (`export_category`'s focused
output shapes); a ship entry falls back to the bare type record when the
id has no dogma-enriched ship record. -/
inductive CatExport where
  | blueprintsOut : List (Nat × Blueprint) → CatExport
  | shipsOut : List (Nat × (ShipRecord ⊕ TypeRecord)) → CatExport
  | typesOut : List (Nat × (TypeRecord × Option DogmaBag)) → CatExport

/-- `export_blueprints_only`: the entire blueprint mapping, verbatim. -/
def export_blueprints_only (r : Resolver) : CatExport :=
  CatExport.blueprintsOut r.blueprints

/-- `export_ships_only`: every id in the ships category, taking the ship
record when present, else the type record. -/
def export_ships_only (r : Resolver) : CatExport :=
  CatExport.shipsOut
    ((r.categories Category.ships).foldl
      (fun out tid =>
        match dictGet? r.ships tid with
        | some sd => dictSet out tid (Sum.inl sd)
        | none =>
          match dictGet? r.types tid with
          | some td => dictSet out tid (Sum.inr td)
          | none => out)
      [])

/-- Shared body of `export_modules_only` and `export_types_only`: copy each
type record, attaching its dogma bag when available. -/
def exportTypesList (r : Resolver) (type_ids : List Nat) : CatExport :=
  CatExport.typesOut
    (type_ids.foldl
      (fun out tid =>
        match dictGet? r.types tid with
        | some td => dictSet out tid (td, dictGet? r.all_dogma tid)
        | none => out)
      [])

/-- `export_category(category)`: `none` for an unknown name, otherwise the
category-specific export. -/
def export_category (r : Resolver) (category : String) : Option CatExport :=
  match catOfString category with
  | none => none
  | some Category.blueprints => some (export_blueprints_only r)
  | some Category.ships => some (export_ships_only r)
  | some Category.modules =>
    some (exportTypesList r (r.categories Category.modules))
  | some c => some (exportTypesList r (r.categories c))

/-- The ordered keyword rule table of spec section 4.3, rules 2 through 10:
each rule is a keyword list paired with the category it assigns. -/
def keywordRules : List (List String × Category) :=
  [(["Blueprint"], Category.blueprints),
   (oreKeywords, Category.ores),
   (fuelKeywords, Category.fuel),
   (ammoKeywords, Category.ammo),
   (weaponKeywords, Category.modules),
   (defenseKeywords, Category.modules),
   (propulsionKeywords, Category.modules),
   (electronicKeywords, Category.modules),
   (miningKeywords, Category.modules)]

/-- First-match evaluation over a keyword rule table. -/
def firstKeywordMatch (type_name : String) :
    List (List String × Category) → Option Category
  | [] => none
  | (kws, c) :: rest =>
    if kws.any (fun x => strHas type_name x) then some c
    else firstKeywordMatch type_name rest

/-- Spec-side classifier for the refinement reading of the classifier
claim: the ship-group rule, then the ordered keyword table of section 4.3
with case-sensitive substring matching (the amended reading; the spec text
says case-insensitive), then the craftable/raw fallback. -/
def classifySpecOrdered (ttb : List (Nat × Nat)) (tid : Nat)
    (td : TypeRecord) : Category :=
  if td.groupID.getD 0 ∈ shipGroupIds then Category.ships
  else
    match firstKeywordMatch (td.typeName.getD "") keywordRules with
    | some c => c
    | none =>
      if (dictGet? ttb tid).isSome then Category.components
      else Category.materials

/-- Concrete dataset: a type named "Engine" that is also a loaded ship. -/
def engineTypes : List (Nat × TypeRecord) := [(1, ⟨some "Engine", some 0⟩)]

/-- Concrete dataset: the same id as a loaded ship record. -/
def engineShips : List (Nat × ShipRecord) :=
  [(1, ⟨some "Engine", some 0, some "Ship"⟩)]

/-- Resolver over a type that the keyword rules classify as a module while
the ships post-pass also forces it into the ships category. -/
def engineResolver : Resolver := mkResolver engineTypes engineShips [] []

/-- Concrete dataset: a single type whose name matches no keyword rule. -/
def rockTypes : List (Nat × TypeRecord) := [(7, ⟨some "Plain Rock", some 3⟩)]

/-- Resolver over the single plain type. -/
def rockResolver : Resolver := mkResolver rockTypes [] [] []

/-- Concrete dataset: a type whose name is "BLUEPRINT" in upper case. -/
def upperBpTypes : List (Nat × TypeRecord) :=
  [(5, ⟨some "BLUEPRINT", some 0⟩)]

/-- Resolver over the upper-cased blueprint name. -/
def upperBpResolver : Resolver := mkResolver upperBpTypes [] [] []

/-- Concrete dataset: one id present, with the same name, in both the types
and the ships mappings. -/
def widgetTypes : List (Nat × TypeRecord) := [(1, ⟨some "Widget", some 7⟩)]

/-- Ships half of the widget dataset; its record differs from the types
record by carrying a group name. -/
def widgetShips : List (Nat × ShipRecord) :=
  [(1, ⟨some "Widget", some 7, some "Widgets"⟩)]

/-- Resolver over the widget dataset. -/
def widgetResolver : Resolver := mkResolver widgetTypes widgetShips [] []

/-- Blueprint 200: manufacturing consumes type 101 and produces type 100. -/
def bpCycleA : Blueprint := ⟨[("manufacturing", ⟨[⟨101, 1⟩], [⟨100, 1⟩]⟩)]⟩

/-- Blueprint 201: manufacturing consumes type 100 and produces type 101. -/
def bpCycleB : Blueprint := ⟨[("manufacturing", ⟨[⟨100, 1⟩], [⟨101, 1⟩]⟩)]⟩

/-- The two-cycle blueprint mapping: 100 requires 101, 101 requires 100. -/
def cycleBlueprints : List (Nat × Blueprint) :=
  [(200, bpCycleA), (201, bpCycleB)]

/-- Types of the cycle dataset. -/
def cycleTypes : List (Nat × TypeRecord) :=
  [(100, ⟨some "Widget", some 0⟩), (101, ⟨some "Gadget", some 0⟩)]

/-- Resolver over the synthetic cyclic blueprint graph. -/
def cycleResolver : Resolver := mkResolver cycleTypes [] cycleBlueprints []

/-- Concrete dataset: a type that no blueprint produces, alongside an
unrelated blueprint. -/
def pebbleTypes : List (Nat × TypeRecord) := [(9, ⟨some "Pebble", none⟩)]

/-- Resolver for the lone non-manufactured type. -/
def pebbleResolver : Resolver :=
  mkResolver pebbleTypes [] [(200, bpCycleA)] []

/-! ### Association-list and set-list lemmas -/

theorem dictKeys_cons {α : Type} (k : Nat) (v : α) (m : List (Nat × α)) :
    dictKeys ((k, v) :: m) = k :: dictKeys m := rfl

theorem mem_dictKeys_iff_isSome {α : Type} (m : List (Nat × α)) (k : Nat) :
    k ∈ dictKeys m ↔ (dictGet? m k).isSome := by
  induction m with
  | nil => simp [dictKeys, dictGet?]
  | cons e rest ih =>
    obtain ⟨k', v⟩ := e
    by_cases h : k = k'
    · simp [dictKeys_cons, dictGet?, h]
    · simp only [dictKeys_cons, List.mem_cons, dictGet?, if_neg h, ih]
      tauto

theorem dictGet?_dictSet_self {α : Type} (m : List (Nat × α)) (k : Nat)
    (v : α) : dictGet? (dictSet m k v) k = some v := by
  induction m with
  | nil => simp [dictSet, dictGet?]
  | cons e rest ih =>
    obtain ⟨k', w⟩ := e
    by_cases h : k = k' <;> simp [dictSet, dictGet?, h, ih]

theorem dictGet?_dictSet_ne {α : Type} (m : List (Nat × α)) (k x : Nat)
    (v : α) (hx : x ≠ k) : dictGet? (dictSet m k v) x = dictGet? m x := by
  induction m with
  | nil => simp [dictSet, dictGet?, hx]
  | cons e rest ih =>
    obtain ⟨k', w⟩ := e
    by_cases h : k = k'
    · subst h
      simp [dictSet, dictGet?, hx]
    · by_cases h2 : x = k' <;> simp [dictSet, dictGet?, h, h2, ih]

theorem dictGet?_dictSet_cases {α : Type} (m : List (Nat × α)) (k x : Nat)
    (v w : α) (h : dictGet? (dictSet m k v) x = some w) :
    (x = k ∧ w = v) ∨ dictGet? m x = some w := by
  by_cases hx : x = k
  · subst hx
    rw [dictGet?_dictSet_self] at h
    exact Or.inl ⟨rfl, (Option.some_injective _ h).symm⟩
  · rw [dictGet?_dictSet_ne m k x v hx] at h
    exact Or.inr h

theorem dictSet_cons_eq {α : Type} (rest : List (Nat × α)) (k k' : Nat)
    (v w : α) :
    dictSet ((k', w) :: rest) k v =
      if k = k' then (k, v) :: rest else (k', w) :: dictSet rest k v := rfl

theorem mem_dictKeys_dictSet {α : Type} (m : List (Nat × α)) (k x : Nat)
    (v : α) : x ∈ dictKeys (dictSet m k v) ↔ x = k ∨ x ∈ dictKeys m := by
  induction m with
  | nil => simp [dictSet, dictKeys]
  | cons e rest ih =>
    obtain ⟨k', w⟩ := e
    rw [dictSet_cons_eq]
    by_cases h : k = k'
    · rw [if_pos h]
      subst h
      simp only [dictKeys_cons, List.mem_cons]
      tauto
    · rw [if_neg h]
      simp only [dictKeys_cons, List.mem_cons, ih]
      tauto

theorem mem_setAdd (s : List Nat) (x y : Nat) :
    x ∈ setAdd s y ↔ x = y ∨ x ∈ s := by
  by_cases h : y ∈ s
  · simp only [setAdd, if_pos h]
    constructor
    · exact fun hx => Or.inr hx
    · rintro (rfl | hx)
      · exact h
      · exact hx
  · simp only [setAdd, if_neg h, List.mem_append, List.mem_singleton]
    tauto

theorem subset_setAdd (s : List Nat) (y : Nat) : s ⊆ setAdd s y := by
  intro x hx
  rw [mem_setAdd]
  exact Or.inr hx

theorem setAdd_nodup (s : List Nat) (y : Nat) (h : s.Nodup) :
    (setAdd s y).Nodup := by
  by_cases hy : y ∈ s
  · simpa [setAdd, hy] using h
  · simp [setAdd, hy, List.nodup_append, h, hy]

theorem mem_setUnion (s l : List Nat) (x : Nat) :
    x ∈ setUnion s l ↔ x ∈ s ∨ x ∈ l := by
  induction l generalizing s with
  | nil => simp [setUnion]
  | cons a rest ih =>
    rw [setUnion, List.foldl_cons]
    rw [show List.foldl setAdd (setAdd s a) rest = setUnion (setAdd s a) rest
        from rfl, ih, mem_setAdd]
    simp
    tauto

theorem subset_setUnion (s l : List Nat) : s ⊆ setUnion s l := by
  intro x hx
  rw [mem_setUnion]
  exact Or.inl hx

theorem setUnion_nodup (s l : List Nat) (h : s.Nodup) :
    (setUnion s l).Nodup := by
  induction l generalizing s with
  | nil => simpa [setUnion] using h
  | cons a rest ih =>
    rw [setUnion, List.foldl_cons]
    exact ih (setAdd s a) (setAdd_nodup s a h)

/-! ### Stable insertion sort lemmas -/

theorem insSorted_perm {α : Type} (le : α → α → Bool) (x : α) (l : List α) :
    List.Perm (insSorted le x l) (x :: l) := by
  induction l with
  | nil => exact List.Perm.refl _
  | cons y ys ih =>
    rw [insSorted]
    by_cases h : le y x = true
    · rw [if_pos h]
      exact (List.Perm.cons y ih).trans (List.Perm.swap x y ys)
    · rw [if_neg h]

theorem sortBy_aux_perm {α : Type} (le : α → α → Bool) (l acc : List α) :
    List.Perm (l.foldl (fun a x => insSorted le x a) acc) (acc ++ l) := by
  induction l generalizing acc with
  | nil => simp
  | cons y ys ih =>
    rw [List.foldl_cons]
    refine ((ih (insSorted le y acc)).trans ?_)
    refine ((insSorted_perm le y acc).append_right ys).trans ?_
    exact (List.perm_middle).symm

theorem sortBy_perm {α : Type} (le : α → α → Bool) (l : List α) :
    List.Perm (sortBy le l) l := by
  simpa using sortBy_aux_perm le l []

theorem mem_sortBy {α : Type} (le : α → α → Bool) (l : List α) (x : α) :
    x ∈ sortBy le l ↔ x ∈ l :=
  (sortBy_perm le l).mem_iff

theorem mem_insSorted {α : Type} (le : α → α → Bool) (x y : α)
    (l : List α) : y ∈ insSorted le x l ↔ y = x ∨ y ∈ l := by
  rw [(insSorted_perm le x l).mem_iff, List.mem_cons]

theorem pairwise_insSorted {α : Type} (le : α → α → Bool)
    (htot : ∀ a b, le a b = true ∨ le b a = true)
    (htrans : ∀ a b c, le a b = true → le b c = true → le a c = true)
    (x : α) (l : List α) (hl : l.Pairwise (fun a b => le a b = true)) :
    (insSorted le x l).Pairwise (fun a b => le a b = true) := by
  induction l with
  | nil => simp [insSorted]
  | cons y ys ih =>
    rw [insSorted]
    rcases List.pairwise_cons.mp hl with ⟨hy, hys⟩
    by_cases h : le y x = true
    · rw [if_pos h]
      refine List.pairwise_cons.mpr ⟨?_, ih hys⟩
      intro z hz
      rcases (mem_insSorted le x z ys).mp hz with rfl | hz
      · exact h
      · exact hy z hz
    · rw [if_neg h]
      have hx : le x y = true := by
        rcases htot x y with h1 | h1
        · exact h1
        · exact absurd h1 h
      refine List.pairwise_cons.mpr ⟨?_, hl⟩
      intro z hz
      rcases List.mem_cons.mp hz with rfl | hz
      · exact hx
      · exact htrans x y z hx (hy z hz)

theorem pairwise_sortBy {α : Type} (le : α → α → Bool)
    (htot : ∀ a b, le a b = true ∨ le b a = true)
    (htrans : ∀ a b c, le a b = true → le b c = true → le a c = true)
    (l : List α) :
    (sortBy le l).Pairwise (fun a b => le a b = true) := by
  rw [sortBy]
  have main : ∀ (l acc : List α),
      acc.Pairwise (fun a b => le a b = true) →
      (l.foldl (fun a x => insSorted le x a) acc).Pairwise
        (fun a b => le a b = true) := by
    intro l
    induction l with
    | nil => intro acc h; simpa using h
    | cons y ys ih =>
      intro acc h
      rw [List.foldl_cons]
      exact ih (insSorted le y acc) (pairwise_insSorted le htot htrans y acc h)
  exact main l [] (by simp)

/-! ### Dependency graph construction lemmas -/

theorem processActivity_cats (b : Nat) (st : GraphState) (a : Activity) :
    (processActivity b st a).cats = st.cats := by
  rw [processActivity]
  dsimp only
  split <;> rfl

theorem processActivity_ttb (b : Nat) (st : GraphState) (a : Activity) :
    (processActivity b st a).type_to_blueprint =
      a.products.foldl (fun m pr => dictSet m pr.typeID b)
        st.type_to_blueprint := by
  rw [processActivity]
  dsimp only
  split <;> rfl

theorem dictAddToSet_keys (m : List (Nat × List Nat)) (k v : Nat) :
    dictKeys (dictAddToSet m k v) = dictKeys m := by
  induction m with
  | nil => rfl
  | cons e rest ih =>
    obtain ⟨k', s⟩ := e
    by_cases h : k' = k <;>
      simp [dictAddToSet, dictKeys, h] at ih ⊢ <;> exact ih

theorem matFold_keys (l : List ItemRef) (b : Nat)
    (m0 : List (Nat × List Nat)) :
    dictKeys (l.foldl (fun m mt => dictAddToSet m b mt.typeID) m0) =
      dictKeys m0 := by
  induction l generalizing m0 with
  | nil => rfl
  | cons mt rest ih =>
    rw [List.foldl_cons, ih, dictAddToSet_keys]

theorem processActivity_materials_pos (b : Nat) (st : GraphState)
    (a : Activity) (h : (dictGet? st.blueprint_materials b).isSome = true) :
    (processActivity b st a).blueprint_materials =
      a.materials.foldl (fun m mt => dictAddToSet m b mt.typeID)
        st.blueprint_materials := by
  rw [processActivity]
  dsimp only
  rw [if_pos h]

theorem processActivity_materials_neg (b : Nat) (st : GraphState)
    (a : Activity) (h : ¬(dictGet? st.blueprint_materials b).isSome = true) :
    (processActivity b st a).blueprint_materials =
      a.materials.foldl (fun m mt => dictAddToSet m b mt.typeID)
        (st.blueprint_materials ++ [(b, [])]) := by
  rw [processActivity]
  dsimp only
  rw [if_neg h]

theorem matKeys_sub_processActivity (b : Nat) (st : GraphState)
    (a : Activity) :
    dictKeys st.blueprint_materials ⊆
      dictKeys (processActivity b st a).blueprint_materials := by
  by_cases h : (dictGet? st.blueprint_materials b).isSome = true
  · rw [processActivity_materials_pos b st a h, matFold_keys]
    exact fun x hx => hx
  · rw [processActivity_materials_neg b st a h, matFold_keys]
    intro x hx
    simp only [dictKeys, List.map_append]
    exact List.mem_append_left _ hx

theorem bp_mem_matKeys_processActivity (b : Nat) (st : GraphState)
    (a : Activity) :
    b ∈ dictKeys (processActivity b st a).blueprint_materials := by
  by_cases h : (dictGet? st.blueprint_materials b).isSome = true
  · rw [processActivity_materials_pos b st a h, matFold_keys]
    exact (mem_dictKeys_iff_isSome _ b).mpr h
  · rw [processActivity_materials_neg b st a h, matFold_keys]
    simp [dictKeys]

theorem ttbFold_cases (l : List ItemRef) (b : Nat) (m0 : List (Nat × Nat))
    (t bp : Nat)
    (h : dictGet? (l.foldl (fun m pr => dictSet m pr.typeID b) m0) t =
      some bp) :
    (bp = b ∧ ∃ pr ∈ l, pr.typeID = t) ∨ dictGet? m0 t = some bp := by
  induction l generalizing m0 with
  | nil => exact Or.inr h
  | cons pr rest ih =>
    rw [List.foldl_cons] at h
    rcases ih (dictSet m0 pr.typeID b) h with ⟨rfl, pr', hpr', ht⟩ | hold
    · exact Or.inl ⟨rfl, pr', List.mem_cons_of_mem pr hpr', ht⟩
    · rcases dictGet?_dictSet_cases m0 pr.typeID t b bp hold with ⟨rfl, rfl⟩ | h2
      · exact Or.inl ⟨rfl, pr, List.mem_cons_self pr rest, rfl⟩
      · exact Or.inr h2

theorem processActivity_ttb_cases (b : Nat) (st : GraphState) (a : Activity)
    (t bp : Nat)
    (h : dictGet? (processActivity b st a).type_to_blueprint t = some bp) :
    (bp = b ∧ ∃ pr ∈ a.products, pr.typeID = t) ∨
      dictGet? st.type_to_blueprint t = some bp := by
  rw [processActivity_ttb] at h
  exact ttbFold_cases a.products b st.type_to_blueprint t bp h

theorem actFold_ttb_cases (acts : List (String × Activity)) (b : Nat)
    (st : GraphState) (t bp : Nat)
    (h : dictGet? ((acts.foldl (fun s a => processActivity b s a.2)
        st).type_to_blueprint) t = some bp) :
    (bp = b ∧ ∃ a ∈ acts, ∃ pr ∈ a.2.products, pr.typeID = t) ∨
      dictGet? st.type_to_blueprint t = some bp := by
  induction acts generalizing st with
  | nil => exact Or.inr h
  | cons a rest ih =>
    rw [List.foldl_cons] at h
    rcases ih (processActivity b st a.2) h with ⟨rfl, a', ha', hp⟩ | hold
    · exact Or.inl ⟨rfl, a', List.mem_cons_of_mem a ha', hp⟩
    · rcases processActivity_ttb_cases b st a.2 t bp hold with ⟨rfl, pr, hpr, ht⟩ | h2
      · exact Or.inl ⟨rfl, a, List.mem_cons_self a rest, pr, hpr, ht⟩
      · exact Or.inr h2

theorem processBlueprint_ttb_cases (st : GraphState) (e : Nat × Blueprint)
    (t bp : Nat)
    (h : dictGet? (processBlueprint st e).type_to_blueprint t = some bp) :
    (bp = e.1 ∧ ∃ a ∈ e.2.activities, ∃ pr ∈ a.2.products, pr.typeID = t) ∨
      dictGet? st.type_to_blueprint t = some bp := by
  rw [processBlueprint] at h
  rcases actFold_ttb_cases e.2.activities e.1 _ t bp h with hl | hr
  · exact Or.inl hl
  · exact Or.inr hr

theorem bpsFold_ttb_cases (l : List (Nat × Blueprint)) (st : GraphState)
    (t bp : Nat)
    (h : dictGet? ((l.foldl processBlueprint st).type_to_blueprint) t =
      some bp) :
    (∃ e ∈ l, bp = e.1 ∧ ∃ a ∈ e.2.activities, ∃ pr ∈ a.2.products,
      pr.typeID = t) ∨ dictGet? st.type_to_blueprint t = some bp := by
  induction l generalizing st with
  | nil => exact Or.inr h
  | cons e rest ih =>
    rw [List.foldl_cons] at h
    rcases ih (processBlueprint st e) h with ⟨e', he', hrest⟩ | hold
    · exact Or.inl ⟨e', List.mem_cons_of_mem e he', hrest⟩
    · rcases processBlueprint_ttb_cases st e t bp hold with ⟨hbp, ha⟩ | h2
      · exact Or.inl ⟨e, List.mem_cons_self e rest, hbp, ha⟩
      · exact Or.inr h2

theorem buildGraph_ttb_origin (bps : List (Nat × Blueprint)) (t bp : Nat)
    (h : dictGet? (buildGraph bps).type_to_blueprint t = some bp) :
    ∃ e ∈ bps, bp = e.1 ∧ ∃ a ∈ e.2.activities, ∃ pr ∈ a.2.products,
      pr.typeID = t := by
  rcases bpsFold_ttb_cases bps _ t bp h with hmain | hnone
  · exact hmain
  · exact absurd hnone (by simp [dictGet?])

theorem foldl_preserves {σ β : Type} (f : σ → β → σ) (P : σ → Prop)
    (hf : ∀ s b, P s → P (f s b)) :
    ∀ (l : List β) (s : σ), P s → P (l.foldl f s) := by
  intro l
  induction l with
  | nil => intro s h; exact h
  | cons b rest ih =>
    intro s h
    rw [List.foldl_cons]
    exact ih (f s b) (hf s b h)

/-- The invariant behind the graph claims: every recorded producing
blueprint id is a key of the materials index. -/
def InvMat (st : GraphState) : Prop :=
  ∀ t bp, dictGet? st.type_to_blueprint t = some bp →
    bp ∈ dictKeys st.blueprint_materials

theorem InvMat_processActivity (b : Nat) (st : GraphState) (a : Activity)
    (inv : InvMat st) : InvMat (processActivity b st a) := by
  intro t bp h
  rcases processActivity_ttb_cases b st a t bp h with ⟨heq, _⟩ | hold
  · rw [heq]
    exact bp_mem_matKeys_processActivity b st a
  · exact matKeys_sub_processActivity b st a (inv t bp hold)

theorem InvMat_processBlueprint (st : GraphState) (e : Nat × Blueprint)
    (inv : InvMat st) : InvMat (processBlueprint st e) := by
  rw [processBlueprint]
  refine foldl_preserves _ InvMat ?_ e.2.activities _ ?_
  · exact fun s a hs => InvMat_processActivity e.1 s a.2 hs
  · exact fun t bp h => inv t bp h

theorem InvMat_buildGraph (bps : List (Nat × Blueprint)) :
    InvMat (buildGraph bps) := by
  rw [buildGraph]
  refine foldl_preserves processBlueprint InvMat ?_ bps _ ?_
  · exact fun s e hs => InvMat_processBlueprint s e hs
  · intro t bp h
    simp [dictGet?] at h

theorem actFold_cats (acts : List (String × Activity)) (b : Nat)
    (st0 : GraphState) :
    (acts.foldl (fun s a => processActivity b s a.2) st0).cats = st0.cats := by
  induction acts generalizing st0 with
  | nil => rfl
  | cons a rest ih =>
    rw [List.foldl_cons, ih (processActivity b st0 a.2), processActivity_cats]

theorem processBlueprint_cats (st : GraphState) (e : Nat × Blueprint) :
    (processBlueprint st e).cats =
      addToCat st.cats Category.blueprints e.1 := by
  rw [processBlueprint]
  rw [actFold_cats]

theorem buildGraph_ttb_none (bps : List (Nat × Blueprint)) (t : Nat)
    (h : ∀ e ∈ bps, ∀ a ∈ e.2.activities, ∀ pr ∈ a.2.products,
      pr.typeID ≠ t) :
    dictGet? (buildGraph bps).type_to_blueprint t = none := by
  cases hg : dictGet? (buildGraph bps).type_to_blueprint t with
  | none => rfl
  | some bp =>
    rcases buildGraph_ttb_origin bps t bp hg with ⟨e, he, _, a, ha, pr, hpr, ht⟩
    exact absurd ht (h e he a ha pr hpr)

theorem buildGraph_ttb_mem_keys (bps : List (Nat × Blueprint)) (t bp : Nat)
    (h : dictGet? (buildGraph bps).type_to_blueprint t = some bp) :
    bp ∈ dictKeys bps := by
  rcases buildGraph_ttb_origin bps t bp h with ⟨e, he, rfl, _⟩
  exact List.mem_map_of_mem Prod.fst he

/-! ### Categorization lemmas -/

theorem mem_addToCat (cats : Category → List Nat) (c : Category) (tid : Nat)
    (c' : Category) (x : Nat) :
    x ∈ addToCat cats c tid c' ↔ (c' = c ∧ x = tid) ∨ x ∈ cats c' := by
  rw [addToCat]
  by_cases h : c' = c
  · rw [if_pos h, mem_setAdd]
    tauto
  · rw [if_neg h]
    tauto

theorem mem_typesCatPass (ttb : List (Nat × Nat))
    (types : List (Nat × TypeRecord)) (cats : Category → List Nat)
    (c : Category) (x : Nat) :
    x ∈ typesCatPass ttb cats types c ↔
      x ∈ cats c ∨
        ∃ td, (x, td) ∈ types ∧ c = categorizeOne ttb x td := by
  induction types generalizing cats with
  | nil => simp [typesCatPass]
  | cons e rest ih =>
    obtain ⟨tid, td⟩ := e
    rw [typesCatPass, List.foldl_cons]
    rw [show List.foldl (fun c e => addToCat c (categorizeOne ttb e.1 e.2) e.1)
        (addToCat cats (categorizeOne ttb tid td) tid) rest =
        typesCatPass ttb (addToCat cats (categorizeOne ttb tid td) tid) rest
        from rfl, ih, mem_addToCat]
    constructor
    · rintro ((⟨hc, rfl⟩ | hx) | ⟨td', htd', hc⟩)
      · exact Or.inr ⟨td, List.mem_cons_self _ _, hc⟩
      · exact Or.inl hx
      · exact Or.inr ⟨td', List.mem_cons_of_mem _ htd', hc⟩
    · rintro (hx | ⟨td', htd', hc⟩)
      · exact Or.inl (Or.inr hx)
      · rcases List.mem_cons.mp htd' with heq | hmem
        · obtain ⟨rfl, rfl⟩ := Prod.mk.injEq .. ▸ heq
          exact Or.inl (Or.inl ⟨hc, rfl⟩)
        · exact Or.inr ⟨td', hmem, hc⟩

theorem mem_shipsCatPass (ships : List (Nat × ShipRecord))
    (cats : Category → List Nat) (c : Category) (x : Nat) :
    x ∈ shipsCatPass cats ships c ↔
      x ∈ cats c ∨ (c = Category.ships ∧ x ∈ dictKeys ships) := by
  induction ships generalizing cats with
  | nil => simp [shipsCatPass, dictKeys]
  | cons e rest ih =>
    obtain ⟨sid, sd⟩ := e
    rw [shipsCatPass, List.foldl_cons]
    rw [show List.foldl (fun c e => addToCat c Category.ships e.1)
        (addToCat cats Category.ships sid) rest =
        shipsCatPass (addToCat cats Category.ships sid) rest from rfl,
      ih, mem_addToCat, dictKeys_cons, List.mem_cons]
    constructor
    · rintro ((⟨hc, rfl⟩ | hx) | ⟨hc, hmem⟩)
      · exact Or.inr ⟨hc, Or.inl rfl⟩
      · exact Or.inl hx
      · exact Or.inr ⟨hc, Or.inr hmem⟩
    · rintro (hx | ⟨hc, rfl | hmem⟩)
      · exact Or.inl (Or.inr hx)
      · exact Or.inl (Or.inl ⟨hc, rfl⟩)
      · exact Or.inr ⟨hc, hmem⟩

theorem bpsFold_cats_mem (l : List (Nat × Blueprint)) (st : GraphState)
    (c : Category) (x : Nat) :
    x ∈ (l.foldl processBlueprint st).cats c ↔
      x ∈ st.cats c ∨ (c = Category.blueprints ∧ x ∈ dictKeys l) := by
  induction l generalizing st with
  | nil => simp [dictKeys]
  | cons e rest ih =>
    rw [List.foldl_cons, ih (processBlueprint st e), processBlueprint_cats,
      mem_addToCat, dictKeys_cons, List.mem_cons]
    constructor
    · rintro ((⟨hc, rfl⟩ | hx) | ⟨hc, hmem⟩)
      · exact Or.inr ⟨hc, Or.inl rfl⟩
      · exact Or.inl hx
      · exact Or.inr ⟨hc, Or.inr hmem⟩
    · rintro (hx | ⟨hc, rfl | hmem⟩)
      · exact Or.inl (Or.inr hx)
      · exact Or.inl (Or.inl ⟨hc, rfl⟩)
      · exact Or.inr ⟨hc, hmem⟩

theorem buildGraph_cats_mem (bps : List (Nat × Blueprint)) (c : Category)
    (x : Nat) :
    x ∈ (buildGraph bps).cats c ↔
      c = Category.blueprints ∧ x ∈ dictKeys bps := by
  rw [buildGraph, bpsFold_cats_mem]
  simp

theorem nodupKeys_functional {α : Type} (l : List (Nat × α))
    (hnd : (dictKeys l).Nodup) (t : Nat) (a b : α)
    (ha : (t, a) ∈ l) (hb : (t, b) ∈ l) : a = b := by
  induction l with
  | nil => cases ha
  | cons e rest ih =>
    obtain ⟨k, v⟩ := e
    rw [dictKeys_cons, List.nodup_cons] at hnd
    rcases List.mem_cons.mp ha with ha' | ha' <;>
      rcases List.mem_cons.mp hb with hb' | hb'
    · have h1 : a = v := congrArg Prod.snd ha'
      have h2 : b = v := congrArg Prod.snd hb'
      rw [h1, h2]
    · have ht : t = k := congrArg Prod.fst ha'
      have hmem : t ∈ dictKeys rest := List.mem_map_of_mem Prod.fst hb'
      rw [ht] at hmem
      exact absurd hmem hnd.1
    · have ht : t = k := congrArg Prod.fst hb'
      have hmem : t ∈ dictKeys rest := List.mem_map_of_mem Prod.fst ha'
      rw [ht] at hmem
      exact absurd hmem hnd.1
    · exact ih hnd.2 ha' hb'

/-! ### Dependency closure lemmas -/

theorem fst_subset_depsStep (g : Nat → List Nat → List Nat × List Nat)
    (acc : List Nat × List Nat) (m : Nat) :
    acc.1 ⊆ (depsStep g acc m).1 := by
  simp only [depsStep]
  intro x hx
  exact subset_setUnion _ _ (subset_setAdd acc.1 m hx)

theorem mem_fst_depsStep (g : Nat → List Nat → List Nat × List Nat)
    (acc : List Nat × List Nat) (m : Nat) :
    m ∈ (depsStep g acc m).1 := by
  simp only [depsStep]
  exact subset_setUnion _ _ ((mem_setAdd acc.1 m m).mpr (Or.inl rfl))

theorem depsFold_fst_mono (g : Nat → List Nat → List Nat × List Nat)
    (l : List Nat) : ∀ (acc : List Nat × List Nat),
    acc.1 ⊆ (l.foldl (depsStep g) acc).1 := by
  induction l with
  | nil => exact fun acc x hx => hx
  | cons m rest ih =>
    intro acc x hx
    rw [List.foldl_cons]
    exact ih (depsStep g acc m) (fst_subset_depsStep g acc m hx)

theorem depsFold_fst_mem (g : Nat → List Nat → List Nat × List Nat)
    (l : List Nat) (m : Nat) : ∀ (acc : List Nat × List Nat), m ∈ l →
    m ∈ (l.foldl (depsStep g) acc).1 := by
  induction l with
  | nil => intro acc hm; cases hm
  | cons a rest ih =>
    intro acc hm
    rw [List.foldl_cons]
    rcases List.mem_cons.mp hm with rfl | hm'
    · exact depsFold_fst_mono g rest (depsStep g acc m)
        (mem_fst_depsStep g acc m)
    · exact ih (depsStep g acc a) hm'

theorem depsFold_fst_nodup (g : Nat → List Nat → List Nat × List Nat)
    (l : List Nat) (acc : List Nat × List Nat) (h : acc.1.Nodup) :
    ((l.foldl (depsStep g) acc).1).Nodup := by
  induction l generalizing acc with
  | nil => exact h
  | cons m rest ih =>
    rw [List.foldl_cons]
    refine ih (depsStep g acc m) ?_
    simp only [depsStep]
    exact setUnion_nodup _ _ (setAdd_nodup acc.1 m h)

theorem getDepsAux_fst_nodup (r : Resolver) (depth t : Nat)
    (v : List Nat) : ((getDepsAux r depth t v).1).Nodup := by
  cases depth with
  | zero => simp [getDepsAux]
  | succ d =>
    rw [getDepsAux]
    by_cases hv : t ∈ v
    · simp [hv]
    · rw [if_neg hv]
      cases httb : dictGet? r.type_to_blueprint t with
      | none => simp
      | some bp =>
        refine depsFold_fst_nodup _ _ _ ?_
        exact setAdd_nodup [t] bp (List.nodup_singleton t)

/-! ### Export assembly lemmas -/

theorem shipsStepPart_blueprints (r : Resolver) (p : Payload) (tid : Nat) :
    (shipsStepPart r p tid).blueprints = p.blueprints := by
  rw [shipsStepPart]
  cases dictGet? r.ships tid <;> rfl

theorem typesStepPart_blueprints (r : Resolver) (p : Payload) (tid : Nat) :
    (typesStepPart r p tid).blueprints = p.blueprints := by
  rw [typesStepPart]
  cases dictGet? r.types tid <;> rfl

theorem bpStepPart_cases (r : Resolver) (p : Payload) (tid : Nat)
    (q : Payload) (h : bpStepPart r p tid = some q) :
    (dictGet? r.type_to_blueprint tid = none ∧ q = p) ∨
      ∃ bp_id bp, dictGet? r.type_to_blueprint tid = some bp_id ∧
        dictGet? r.blueprints bp_id = some bp ∧
        q = { p with blueprints := dictSet p.blueprints bp_id bp } := by
  rw [bpStepPart] at h
  cases httb : dictGet? r.type_to_blueprint tid with
  | none =>
    simp only [httb] at h
    exact Or.inl ⟨rfl, (Option.some.inj h).symm⟩
  | some bp_id =>
    simp only [httb] at h
    cases hbp : dictGet? r.blueprints bp_id with
    | none =>
      simp only [hbp] at h
      cases h
    | some bp =>
      simp only [hbp] at h
      exact Or.inr ⟨bp_id, bp, rfl, hbp, (Option.some.inj h).symm⟩

theorem exportStep_bp_keys_mono (r : Resolver) (p : Payload) (tid : Nat)
    (q : Payload) (h : exportStep r p tid = some q) :
    dictKeys p.blueprints ⊆ dictKeys q.blueprints := by
  rw [exportStep] at h
  rcases bpStepPart_cases r _ tid q h with ⟨_, rfl⟩ | ⟨bp_id, bp, _, _, rfl⟩
  · rw [typesStepPart_blueprints, shipsStepPart_blueprints]
    exact fun x hx => hx
  · intro x hx
    dsimp only
    rw [mem_dictKeys_dictSet, typesStepPart_blueprints,
      shipsStepPart_blueprints]
    exact Or.inr hx

theorem exportStep_adds_bp (r : Resolver) (p : Payload) (tid : Nat)
    (q : Payload) (bp_id : Nat)
    (httb : dictGet? r.type_to_blueprint tid = some bp_id)
    (h : exportStep r p tid = some q) :
    bp_id ∈ dictKeys q.blueprints := by
  rw [exportStep] at h
  rcases bpStepPart_cases r _ tid q h with ⟨hnone, _⟩ | ⟨bp_id', bp, httb', _, rfl⟩
  · rw [httb] at hnone
    cases hnone
  · rw [httb] at httb'
    obtain rfl := Option.some.inj httb'
    dsimp only
    rw [mem_dictKeys_dictSet]
    exact Or.inl rfl

theorem expFold_none (r : Resolver) (l : List Nat) :
    l.foldl (fun op tid => op.bind (fun p => exportStep r p tid)) none =
      none := by
  induction l with
  | nil => rfl
  | cons tid rest ih =>
    rw [List.foldl_cons]
    exact ih

theorem expFold_bp_keys_mono (r : Resolver) (l : List Nat) (p q : Payload)
    (h : l.foldl (fun op tid => op.bind (fun p => exportStep r p tid))
      (some p) = some q) :
    dictKeys p.blueprints ⊆ dictKeys q.blueprints := by
  induction l generalizing p with
  | nil => exact (Option.some.inj h) ▸ fun x hx => hx
  | cons tid rest ih =>
    rw [List.foldl_cons] at h
    cases hstep : exportStep r p tid with
    | none =>
      rw [Option.some_bind, hstep] at h
      rw [expFold_none] at h
      cases h
    | some p1 =>
      rw [Option.some_bind, hstep] at h
      exact fun x hx =>
        ih p1 h (exportStep_bp_keys_mono r p tid p1 hstep hx)

theorem expFold_isSome (r : Resolver) (l : List Nat) (p : Payload)
    (hstep : ∀ (q : Payload) (tid : Nat), tid ∈ l →
      (exportStep r q tid).isSome = true) :
    (l.foldl (fun op tid => op.bind (fun p => exportStep r p tid))
      (some p)).isSome = true := by
  induction l generalizing p with
  | nil => rfl
  | cons tid rest ih =>
    rw [List.foldl_cons, Option.some_bind]
    cases hs : exportStep r p tid with
    | none =>
      have := hstep p tid (List.mem_cons_self tid rest)
      rw [hs] at this
      cases this
    | some p1 =>
      exact ih p1 (fun q t ht => hstep q t (List.mem_cons_of_mem tid ht))

/-! ### Search lemmas -/

theorem nameMatches_sub (ql : List Char) (name : String)
    (h : nameMatches ql name = true) :
    charsSub ql (lowerChars name) = true := by
  rw [nameMatches, Bool.and_eq_true] at h
  exact h.2

theorem typesSearchStep_sub (ql : List Char) (acc : List SearchResult)
    (e : Nat × TypeRecord) : acc ⊆ typesSearchStep ql acc e := by
  rw [typesSearchStep]
  split
  · exact List.subset_append_left acc _
  · exact fun x hx => hx

theorem shipsSearchStep_sub (ql : List Char) (acc : List SearchResult)
    (e : Nat × ShipRecord) : acc ⊆ shipsSearchStep ql acc e := by
  rw [shipsSearchStep]
  split
  · exact List.subset_append_left acc _
  · exact fun x hx => hx

theorem typesSearchStep_origin (ql : List Char) (acc : List SearchResult)
    (e : Nat × TypeRecord) (x : SearchResult)
    (hx : x ∈ typesSearchStep ql acc e) :
    x ∈ acc ∨
      (x = typesEntry e ∧ nameMatches ql (e.2.typeName.getD "") = true) := by
  rw [typesSearchStep] at hx
  by_cases h : nameMatches ql (e.2.typeName.getD "") = true
  · rw [if_pos h] at hx
    rcases List.mem_append.mp hx with hl | hr
    · exact Or.inl hl
    · exact Or.inr ⟨List.mem_singleton.mp hr, h⟩
  · rw [if_neg h] at hx
    exact Or.inl hx

theorem shipsSearchStep_origin (ql : List Char) (acc : List SearchResult)
    (e : Nat × ShipRecord) (x : SearchResult)
    (hx : x ∈ shipsSearchStep ql acc e) :
    x ∈ acc ∨
      (x = shipsEntry e ∧ nameMatches ql (e.2.typeName.getD "") = true) := by
  rw [shipsSearchStep] at hx
  by_cases h : nameMatches ql (e.2.typeName.getD "") = true ∧
      ∀ y ∈ acc, y.typeID ≠ e.1
  · rw [if_pos h] at hx
    rcases List.mem_append.mp hx with hl | hr
    · exact Or.inl hl
    · exact Or.inr ⟨List.mem_singleton.mp hr, h.1⟩
  · rw [if_neg h] at hx
    exact Or.inl hx

theorem searchTypesLoop_sound (r : Resolver) (ql : List Char)
    (x : SearchResult) (hx : x ∈ searchTypesLoop r ql) :
    charsSub ql (lowerChars x.typeName) = true := by
  rw [searchTypesLoop] at hx
  refine foldl_preserves (typesSearchStep ql)
    (fun acc => ∀ y ∈ acc, charsSub ql (lowerChars y.typeName) = true)
    ?_ r.types [] (by intro y hy; cases hy) x hx
  intro acc e hacc y hy
  rcases typesSearchStep_origin ql acc e y hy with hold | ⟨rfl, hm⟩
  · exact hacc y hold
  · exact nameMatches_sub ql _ hm

theorem searchShipsLoop_sound (r : Resolver) (ql : List Char)
    (init : List SearchResult)
    (hinit : ∀ y ∈ init, charsSub ql (lowerChars y.typeName) = true)
    (x : SearchResult) (hx : x ∈ searchShipsLoop r ql init) :
    charsSub ql (lowerChars x.typeName) = true := by
  rw [searchShipsLoop] at hx
  refine foldl_preserves (shipsSearchStep ql)
    (fun acc => ∀ y ∈ acc, charsSub ql (lowerChars y.typeName) = true)
    ?_ r.ships init hinit x hx
  intro acc e hacc y hy
  rcases shipsSearchStep_origin ql acc e y hy with hold | ⟨rfl, hm⟩
  · exact hacc y hold
  · exact nameMatches_sub ql _ hm

theorem typesLoopAux_sub (ql : List Char) (l : List (Nat × TypeRecord)) :
    ∀ acc, acc ⊆ l.foldl (typesSearchStep ql) acc := by
  induction l with
  | nil => exact fun acc x hx => hx
  | cons e rest ih =>
    intro acc x hx
    rw [List.foldl_cons]
    exact ih (typesSearchStep ql acc e) (typesSearchStep_sub ql acc e hx)

theorem shipsLoopAux_sub (ql : List Char) (l : List (Nat × ShipRecord)) :
    ∀ acc, acc ⊆ l.foldl (shipsSearchStep ql) acc := by
  induction l with
  | nil => exact fun acc x hx => hx
  | cons e rest ih =>
    intro acc x hx
    rw [List.foldl_cons]
    exact ih (shipsSearchStep ql acc e) (shipsSearchStep_sub ql acc e hx)

theorem typesLoopAux_complete (ql : List Char)
    (l : List (Nat × TypeRecord)) (tid : Nat) (td : TypeRecord)
    (hmem : (tid, td) ∈ l)
    (hm : nameMatches ql (td.typeName.getD "") = true) :
    ∀ acc, typesEntry (tid, td) ∈ l.foldl (typesSearchStep ql) acc := by
  induction l with
  | nil => cases hmem
  | cons e rest ih =>
    intro acc
    rw [List.foldl_cons]
    rcases List.mem_cons.mp hmem with heq | hmem'
    · refine typesLoopAux_sub ql rest (typesSearchStep ql acc e) ?_
      rw [← heq, typesSearchStep]
      dsimp only
      rw [if_pos hm]
      exact List.mem_append_right acc (List.mem_singleton.mpr rfl)
    · exact ih hmem' (typesSearchStep ql acc e)

theorem searchTypesLoop_complete (r : Resolver) (ql : List Char) (tid : Nat)
    (td : TypeRecord) (hmem : (tid, td) ∈ r.types)
    (hm : nameMatches ql (td.typeName.getD "") = true) :
    typesEntry (tid, td) ∈ searchTypesLoop r ql :=
  typesLoopAux_complete ql r.types tid td hmem hm []

theorem shipsLoopAux_complete (ql : List Char)
    (l : List (Nat × ShipRecord)) (sid : Nat) (sd : ShipRecord)
    (hm : nameMatches ql (sd.typeName.getD "") = true) :
    ∀ acc, (sid, sd) ∈ l → (dictKeys l).Nodup →
      (∀ x ∈ acc, x.typeID ≠ sid) →
      shipsEntry (sid, sd) ∈ l.foldl (shipsSearchStep ql) acc := by
  induction l with
  | nil => intro acc hmem _ _; cases hmem
  | cons e rest ih =>
    intro acc hmem hnd hacc
    rw [dictKeys_cons, List.nodup_cons] at hnd
    rw [List.foldl_cons]
    rcases List.mem_cons.mp hmem with heq | hmem'
    · refine shipsLoopAux_sub ql rest (shipsSearchStep ql acc e) ?_
      rw [← heq, shipsSearchStep]
      dsimp only
      rw [if_pos ⟨hm, hacc⟩]
      exact List.mem_append_right acc (List.mem_singleton.mpr rfl)
    · have hne : e.1 ≠ sid := by
        intro hcontra
        have : sid ∈ dictKeys rest := List.mem_map_of_mem Prod.fst hmem'
        rw [hcontra] at hnd
        exact hnd.1 this
      refine ih (shipsSearchStep ql acc e) hmem' hnd.2 ?_
      intro x hx
      rcases shipsSearchStep_origin ql acc e x hx with hold | ⟨rfl, _⟩
      · exact hacc x hold
      · exact hne

theorem typesLoopAux_pairwise (ql : List Char)
    (l : List (Nat × TypeRecord)) :
    ∀ acc, (dictKeys l).Nodup →
      acc.Pairwise (fun a b => a.typeID ≠ b.typeID) →
      (∀ x ∈ acc, x.typeID ∉ dictKeys l) →
      (l.foldl (typesSearchStep ql) acc).Pairwise
        (fun a b => a.typeID ≠ b.typeID) := by
  induction l with
  | nil => intro acc _ hacc _; exact hacc
  | cons e rest ih =>
    intro acc hnd hacc hids
    rw [dictKeys_cons, List.nodup_cons] at hnd
    rw [List.foldl_cons]
    have hstep_pw : (typesSearchStep ql acc e).Pairwise
        (fun a b => a.typeID ≠ b.typeID) := by
      rw [typesSearchStep]
      split
      · rw [List.pairwise_append]
        refine ⟨hacc, List.pairwise_singleton _ _, ?_⟩
        intro a ha b hb
        rw [List.mem_singleton.mp hb]
        intro hcontra
        exact hids a ha (hcontra ▸ List.mem_cons_self e.1 _)
      · exact hacc
    have hstep_ids : ∀ x ∈ typesSearchStep ql acc e,
        x.typeID ∉ dictKeys rest := by
      intro x hx
      rcases typesSearchStep_origin ql acc e x hx with hold | ⟨rfl, _⟩
      · intro hcontra
        exact hids x hold (List.mem_cons_of_mem e.1 hcontra)
      · exact hnd.1
    exact ih (typesSearchStep ql acc e) hnd.2 hstep_pw hstep_ids

theorem shipsLoopAux_pairwise (ql : List Char)
    (l : List (Nat × ShipRecord)) :
    ∀ acc, acc.Pairwise (fun a b => a.typeID ≠ b.typeID) →
      (l.foldl (shipsSearchStep ql) acc).Pairwise
        (fun a b => a.typeID ≠ b.typeID) := by
  induction l with
  | nil => intro acc hacc; exact hacc
  | cons e rest ih =>
    intro acc hacc
    rw [List.foldl_cons]
    refine ih (shipsSearchStep ql acc e) ?_
    rw [shipsSearchStep]
    by_cases h : nameMatches ql (e.2.typeName.getD "") = true ∧
        ∀ x ∈ acc, x.typeID ≠ e.1
    · rw [if_pos h]
      rw [List.pairwise_append]
      refine ⟨hacc, List.pairwise_singleton _ _, ?_⟩
      intro a ha b hb
      rw [List.mem_singleton.mp hb]
      exact h.2 a ha
    · rw [if_neg h]
      exact hacc

theorem byTypeName_total (a b : SearchResult) :
    byTypeName a b = true ∨ byTypeName b a = true := by
  simp only [byTypeName, decide_eq_true_eq]
  exact le_total a.typeName b.typeName

theorem byTypeName_trans (a b c : SearchResult) (h1 : byTypeName a b = true)
    (h2 : byTypeName b c = true) : byTypeName a c = true := by
  simp only [byTypeName, decide_eq_true_eq] at h1 h2 ⊢
  exact le_trans h1 h2

/-! ### Classifier refinement lemmas -/

theorem firstKeywordMatch_cons (name : String) (kws : List String)
    (c : Category) (rest : List (List String × Category)) :
    firstKeywordMatch name ((kws, c) :: rest) =
      if kws.any (fun x => strHas name x) then some c
      else firstKeywordMatch name rest := rfl

theorem any_singleton (f : String → Bool) (a : String) :
    [a].any f = f a := by
  simp

theorem categorizeOne_eq_spec (ttb : List (Nat × Nat)) (tid : Nat)
    (td : TypeRecord) :
    categorizeOne ttb tid td = classifySpecOrdered ttb tid td := by
  rw [categorizeOne, classifySpecOrdered, keywordRules]
  have hb : (["Blueprint"].any fun x => strHas (td.typeName.getD "") x) =
      strHas (td.typeName.getD "") "Blueprint" := by
    rw [any_singleton]
  by_cases h1 : td.groupID.getD 0 ∈ shipGroupIds
  · rw [if_pos h1]
    conv_rhs => rw [if_pos h1]
  rw [if_neg h1]
  conv_rhs => rw [if_neg h1]
  rw [firstKeywordMatch_cons, hb]
  by_cases h2 : strHas (td.typeName.getD "") "Blueprint" = true
  · rw [if_pos h2]
    conv_rhs => rw [if_pos h2]
  rw [if_neg h2]
  conv_rhs => rw [if_neg h2]
  rw [firstKeywordMatch_cons]
  by_cases h3 : (oreKeywords.any fun x => strHas (td.typeName.getD "") x) = true
  · rw [if_pos h3]
    conv_rhs => rw [if_pos h3]
  rw [if_neg h3]
  conv_rhs => rw [if_neg h3]
  rw [firstKeywordMatch_cons]
  by_cases h4 : (fuelKeywords.any fun x => strHas (td.typeName.getD "") x) = true
  · rw [if_pos h4]
    conv_rhs => rw [if_pos h4]
  rw [if_neg h4]
  conv_rhs => rw [if_neg h4]
  rw [firstKeywordMatch_cons]
  by_cases h5 : (ammoKeywords.any fun x => strHas (td.typeName.getD "") x) = true
  · rw [if_pos h5]
    conv_rhs => rw [if_pos h5]
  rw [if_neg h5]
  conv_rhs => rw [if_neg h5]
  rw [firstKeywordMatch_cons]
  by_cases h6 : (weaponKeywords.any fun x => strHas (td.typeName.getD "") x) = true
  · rw [if_pos h6]
    conv_rhs => rw [if_pos h6]
  rw [if_neg h6]
  conv_rhs => rw [if_neg h6]
  rw [firstKeywordMatch_cons]
  by_cases h7 : (defenseKeywords.any fun x => strHas (td.typeName.getD "") x) = true
  · rw [if_pos h7]
    conv_rhs => rw [if_pos h7]
  rw [if_neg h7]
  conv_rhs => rw [if_neg h7]
  rw [firstKeywordMatch_cons]
  by_cases h8 : (propulsionKeywords.any fun x => strHas (td.typeName.getD "") x) = true
  · rw [if_pos h8]
    conv_rhs => rw [if_pos h8]
  rw [if_neg h8]
  conv_rhs => rw [if_neg h8]
  rw [firstKeywordMatch_cons]
  by_cases h9 : (electronicKeywords.any fun x => strHas (td.typeName.getD "") x) = true
  · rw [if_pos h9]
    conv_rhs => rw [if_pos h9]
  rw [if_neg h9]
  conv_rhs => rw [if_neg h9]
  rw [firstKeywordMatch_cons]
  by_cases h10 : (miningKeywords.any fun x => strHas (td.typeName.getD "") x) = true
  · rw [if_pos h10]
    conv_rhs => rw [if_pos h10]
  rw [if_neg h10]
  conv_rhs => rw [if_neg h10]
  rfl

/-! ### Resolver-level lemmas -/

theorem mkResolver_categories_mem (types : List (Nat × TypeRecord))
    (ships : List (Nat × ShipRecord)) (bps : List (Nat × Blueprint))
    (dg : List (Nat × DogmaBag)) (c : Category) (x : Nat) :
    x ∈ (mkResolver types ships bps dg).categories c ↔
      (∃ td, (x, td) ∈ types ∧
        c = categorizeOne (buildGraph bps).type_to_blueprint x td) ∨
      (c = Category.blueprints ∧ x ∈ dictKeys bps) ∨
      (c = Category.ships ∧ x ∈ dictKeys ships) := by
  have hc : (mkResolver types ships bps dg).categories =
      shipsCatPass (typesCatPass (buildGraph bps).type_to_blueprint
        (buildGraph bps).cats types) ships := rfl
  rw [hc, mem_shipsCatPass, mem_typesCatPass, buildGraph_cats_mem]
  constructor
  · rintro ((hbp | ⟨td, htd, hcat⟩) | hsh)
    · exact Or.inr (Or.inl hbp)
    · exact Or.inl ⟨td, htd, hcat⟩
    · exact Or.inr (Or.inr hsh)
  · rintro (⟨td, htd, hcat⟩ | hbp | hsh)
    · exact Or.inl (Or.inr ⟨td, htd, hcat⟩)
    · exact Or.inl (Or.inl hbp)
    · exact Or.inr hsh

theorem catOfString_eq_none (s : String) (h : s ∉ categoryNames) :
    catOfString s = none := by
  simp only [categoryNames, List.mem_cons, List.not_mem_nil, or_false] at h
  push_neg at h
  obtain ⟨h1, h2, h3, h4, h5, h6, h7, h8⟩ := h
  rw [catOfString, if_neg h1, if_neg h2, if_neg h3, if_neg h4, if_neg h5,
    if_neg h6, if_neg h7, if_neg h8]

theorem bpStepPart_isSome (r : Resolver) (p : Payload) (tid : Nat)
    (hbp : ∀ t bp, dictGet? r.type_to_blueprint t = some bp →
      (dictGet? r.blueprints bp).isSome = true) :
    (bpStepPart r p tid).isSome = true := by
  rw [bpStepPart]
  cases httb : dictGet? r.type_to_blueprint tid with
  | none => rfl
  | some bp =>
    have hv := hbp tid bp httb
    obtain ⟨bpv, hbpv⟩ := Option.isSome_iff_exists.mp hv
    simp [hbpv]

theorem exportStep_isSome (r : Resolver) (p : Payload) (tid : Nat)
    (hbp : ∀ t bp, dictGet? r.type_to_blueprint t = some bp →
      (dictGet? r.blueprints bp).isSome = true) :
    (exportStep r p tid).isSome = true := by
  rw [exportStep]
  exact bpStepPart_isSome r _ tid hbp

/-! ### Claim theorems -/

/-- C1 (amended): for every type id in the loaded types mapping that is
neither a key of the ships mapping nor a key of the blueprints mapping
(and with duplicate-free types keys), exactly one of the eight category
sets contains that id after construction.  The exclusions are forced by the
counterexample: the ships post-pass union and the graph pass's blueprint
registration add ids to category sets independently of the classifier. -/
theorem c1_category_exclusivity (types : List (Nat × TypeRecord))
    (ships : List (Nat × ShipRecord)) (bps : List (Nat × Blueprint))
    (dg : List (Nat × DogmaBag)) (hnd : (dictKeys types).Nodup) (t : Nat)
    (td : TypeRecord) (ht : (t, td) ∈ types) (hs : t ∉ dictKeys ships)
    (hb : t ∉ dictKeys bps) :
    ∃! c, t ∈ (mkResolver types ships bps dg).categories c := by
  refine ⟨categorizeOne (buildGraph bps).type_to_blueprint t td, ?_, ?_⟩
  · show t ∈ (mkResolver types ships bps dg).categories
      (categorizeOne (buildGraph bps).type_to_blueprint t td)
    rw [mkResolver_categories_mem]
    exact Or.inl ⟨td, ht, rfl⟩
  · intro c hc
    rw [mkResolver_categories_mem] at hc
    rcases hc with ⟨td', htd', rfl⟩ | ⟨_, hmem⟩ | ⟨_, hmem⟩
    · rw [nodupKeys_functional types hnd t td' td htd' ht]
    · exact absurd hmem hb
    · exact absurd hmem hs

/-- C1 counterexample: type id 1, named "Engine", is in the loaded types
mapping and is classified as a module, but the ships post-pass union also
forces it into the ships category, so it lies in two category sets and the
claimed exclusivity fails as stated. -/
theorem c1_category_exclusivity_cex :
    1 ∈ engineResolver.categories Category.modules ∧
    1 ∈ engineResolver.categories Category.ships ∧
    Category.modules ≠ Category.ships ∧
    ¬(∃! c, 1 ∈ engineResolver.categories c) := by
  refine ⟨by decide, by decide, by decide, ?_⟩
  rintro ⟨c, _, huniq⟩
  have h1 := huniq Category.modules (by decide)
  have h2 := huniq Category.ships (by decide)
  exact absurd (h1.trans h2.symm) (by decide)

/-- C1 witness: the amended exclusivity applied to the concrete dataset
holding one plain type and nothing else. -/
theorem c1_category_exclusivity_witness :
    (dictKeys rockTypes).Nodup ∧
    (7, (⟨some "Plain Rock", some 3⟩ : TypeRecord)) ∈ rockTypes ∧
    7 ∉ dictKeys ([] : List (Nat × ShipRecord)) ∧
    7 ∉ dictKeys ([] : List (Nat × Blueprint)) ∧
    (∃! c, 7 ∈ (mkResolver rockTypes [] [] []).categories c) :=
  ⟨by decide, by decide, by decide, by decide,
    c1_category_exclusivity rockTypes [] [] [] (by decide) 7
      ⟨some "Plain Rock", some 3⟩ (by decide) (by decide) (by decide)⟩

/-- C2 (amended): the classifier's keyword rules 2 through 10 match
case-sensitively, first matching rule in the fixed order winning: the
classifier equals the ordered rule-table evaluation of the spec with
exact-case substring matching. -/
theorem c2_keyword_rules (ttb : List (Nat × Nat)) (tid : Nat)
    (td : TypeRecord) :
    categorizeOne ttb tid td = classifySpecOrdered ttb tid td :=
  categorizeOne_eq_spec ttb tid td

/-- C2 counterexample: the display name "BLUEPRINT" contains the rule-2
keyword "Blueprint" in a different letter casing, yet the classifier does
not assign the blueprints category (the type falls through to materials),
so the claimed case-insensitive matching fails as stated. -/
theorem c2_keyword_rules_cex :
    charsSub (lowerChars "Blueprint") (lowerChars "BLUEPRINT") = true ∧
    strHas "BLUEPRINT" "Blueprint" = false ∧
    5 ∈ upperBpResolver.categories Category.materials ∧
    5 ∉ upperBpResolver.categories Category.blueprints := by
  decide

/-- C4: in a blueprint graph with a two-cycle (A's blueprint requires B,
B's blueprint requires A), `get_dependencies` at the default depth 10
terminates (the embedding is a total function on the depth bound) and its
result contains both A and B exactly once each. -/
theorem c4_cycle_safety (r : Resolver) (A B bpA bpB : Nat) (hAB : A ≠ B)
    (h1 : dictGet? r.type_to_blueprint A = some bpA)
    (h2 : dictGet? r.blueprint_materials bpA = some [B])
    (h3 : dictGet? r.type_to_blueprint B = some bpB)
    (h4 : dictGet? r.blueprint_materials bpB = some [A]) :
    A ∈ get_dependencies r A 10 ∧ B ∈ get_dependencies r A 10 ∧
    (get_dependencies r A 10).count A = 1 ∧
    (get_dependencies r A 10).count B = 1 := by
  have hnd : (get_dependencies r A 10).Nodup := getDepsAux_fst_nodup r 10 A []
  have hA : A ∈ get_dependencies r A 10 := by
    rw [get_dependencies, show (10 : Nat) = 9 + 1 from rfl, getDepsAux]
    rw [if_neg (List.not_mem_nil A)]
    simp only [h1, h2, Option.getD_some]
    exact depsFold_fst_mono _ _ _
      ((mem_setAdd [A] A bpA).mpr (Or.inr (List.mem_singleton.mpr rfl)))
  have hB : B ∈ get_dependencies r A 10 := by
    rw [get_dependencies, show (10 : Nat) = 9 + 1 from rfl, getDepsAux]
    rw [if_neg (List.not_mem_nil A)]
    simp only [h1, h2, Option.getD_some]
    exact depsFold_fst_mem _ _ _ _ (List.mem_singleton.mpr rfl)
  exact ⟨hA, hB, List.count_eq_one_of_mem hnd hA,
    List.count_eq_one_of_mem hnd hB⟩

/-- C4 witness: the synthetic two-cycle dataset (100 requires 101 via
blueprint 200, 101 requires 100 via blueprint 201). -/
theorem c4_cycle_safety_witness :
    (100 : Nat) ≠ 101 ∧
    dictGet? cycleResolver.type_to_blueprint 100 = some 200 ∧
    dictGet? cycleResolver.blueprint_materials 200 = some [101] ∧
    dictGet? cycleResolver.type_to_blueprint 101 = some 201 ∧
    dictGet? cycleResolver.blueprint_materials 201 = some [100] ∧
    (100 ∈ get_dependencies cycleResolver 100 10 ∧
      101 ∈ get_dependencies cycleResolver 100 10 ∧
      (get_dependencies cycleResolver 100 10).count 100 = 1 ∧
      (get_dependencies cycleResolver 100 10).count 101 = 1) :=
  ⟨by decide, by decide, by decide, by decide, by decide,
    c4_cycle_safety cycleResolver 100 101 200 201 (by decide) (by decide)
      (by decide) (by decide) (by decide)⟩

/-- C5: `get_dependencies` with depth 0 returns the empty set for every
type id, performing no expansion at all. -/
theorem c5_depth_zero (r : Resolver) (t : Nat) :
    get_dependencies r t 0 = [] := rfl

/-- C7: after building the dependency graph from any blueprints mapping,
every blueprint id stored as a value of `type_to_blueprint` is a key of
`blueprint_materials`. -/
theorem c7_graph_invariant (bps : List (Nat × Blueprint)) (t bp : Nat)
    (h : dictGet? (buildGraph bps).type_to_blueprint t = some bp) :
    bp ∈ dictKeys (buildGraph bps).blueprint_materials :=
  InvMat_buildGraph bps t bp h

/-- C7 witness: the invariant at the two-cycle blueprint mapping, for the
product 100 of blueprint 200. -/
theorem c7_graph_invariant_witness :
    dictGet? (buildGraph cycleBlueprints).type_to_blueprint 100 =
      some 200 ∧
    200 ∈ dictKeys (buildGraph cycleBlueprints).blueprint_materials :=
  ⟨by decide, c7_graph_invariant cycleBlueprints 100 200 (by decide)⟩

/-- C8: for a category name outside the eight known categories,
`export_category` performs no export and returns the null result, and
`list_category` returns the empty list; both are total functions, so
neither raises nor terminates the process. -/
theorem c8_unknown_category (r : Resolver) (category : String)
    (h : category ∉ categoryNames) :
    export_category r category = none ∧ list_category r category = [] := by
  have hn := catOfString_eq_none category h
  rw [export_category, list_category, hn]
  exact ⟨rfl, rfl⟩

/-- C8 witness: the unknown category name "minerals" on a concrete
resolver. -/
theorem c8_unknown_category_witness :
    "minerals" ∉ categoryNames ∧
    (export_category pebbleResolver "minerals" = none ∧
      list_category pebbleResolver "minerals" = []) :=
  ⟨by decide, c8_unknown_category pebbleResolver "minerals" (by decide)⟩

/-- C9: every value stored in `type_to_blueprint` is a key of the loaded
blueprints mapping, so the `self.blueprints[bp_id]` lookup performed by
`export_selection` always succeeds: the export never hits the KeyError
path, for any selection and either dependency mode. -/
theorem c9_blueprint_lookup_safety (types : List (Nat × TypeRecord))
    (ships : List (Nat × ShipRecord)) (bps : List (Nat × Blueprint))
    (dg : List (Nat × DogmaBag)) :
    (∀ t bp,
      dictGet? (mkResolver types ships bps dg).type_to_blueprint t =
        some bp → (dictGet? bps bp).isSome = true) ∧
    (∀ (ids : List Nat) (incl : Bool),
      (export_selection (mkResolver types ships bps dg) ids
        incl).isSome = true) := by
  have hval : ∀ t bp,
      dictGet? (mkResolver types ships bps dg).type_to_blueprint t =
        some bp → (dictGet? bps bp).isSome = true := by
    intro t bp h
    exact (mem_dictKeys_iff_isSome bps bp).mp
      (buildGraph_ttb_mem_keys bps t bp h)
  refine ⟨hval, ?_⟩
  intro ids incl
  exact expFold_isSome _ _ _
    (fun q tid _ => exportStep_isSome _ q tid hval)

/-- C9 witness: a concrete export over the cyclic dataset succeeds. -/
theorem c9_blueprint_lookup_safety_witness :
    (export_selection (mkResolver cycleTypes [] cycleBlueprints [])
      [100] true).isSome = true :=
  (c9_blueprint_lookup_safety cycleTypes [] cycleBlueprints []).2 [100] true

/-- C3 (amended): `search_types` returns at most one entry per type id
(given duplicate-free mapping keys), every entry matches the query
case-insensitively as a substring, the result is sorted alphabetically by
`typeName`, every matching types-mapping item contributes its entry, and a
matching ships-mapping item contributes its entry only when its id was not
already matched from the types mapping — on a conflict the kept entry is
the one from the types mapping, not the ships mapping. -/
theorem c3_search_precedence (r : Resolver) (query : String)
    (hnt : (dictKeys r.types).Nodup) (hns : (dictKeys r.ships).Nodup) :
    (search_types r query).Pairwise (fun a b => a.typeID ≠ b.typeID) ∧
    (search_types r query).Pairwise
      (fun a b => a.typeName ≤ b.typeName) ∧
    (∀ x ∈ search_types r query,
      charsSub (lowerChars query) (lowerChars x.typeName) = true) ∧
    (∀ tid td, (tid, td) ∈ r.types →
      nameMatches (lowerChars query) (td.typeName.getD "") = true →
      typesEntry (tid, td) ∈ search_types r query) ∧
    (∀ sid sd, (sid, sd) ∈ r.ships →
      nameMatches (lowerChars query) (sd.typeName.getD "") = true →
      (∀ x ∈ searchTypesLoop r (lowerChars query), x.typeID ≠ sid) →
      shipsEntry (sid, sd) ∈ search_types r query) := by
  have hperm : List.Perm (search_types r query)
      (searchShipsLoop r (lowerChars query)
        (searchTypesLoop r (lowerChars query))) :=
    sortBy_perm byTypeName _
  have hsymm : ∀ {a b : SearchResult},
      a.typeID ≠ b.typeID → b.typeID ≠ a.typeID :=
    fun h he => h he.symm
  refine ⟨?_, ?_, ?_, ?_, ?_⟩
  · refine (hperm.pairwise_iff hsymm).mpr ?_
    refine shipsLoopAux_pairwise (lowerChars query) r.ships _ ?_
    refine typesLoopAux_pairwise (lowerChars query) r.types [] hnt
      List.Pairwise.nil ?_
    intro x hx
    cases hx
  · refine List.Pairwise.imp ?_
      (pairwise_sortBy byTypeName byTypeName_total byTypeName_trans _)
    intro a b h
    rw [byTypeName, decide_eq_true_eq] at h
    exact h
  · intro x hx
    have hx' : x ∈ searchShipsLoop r (lowerChars query)
        (searchTypesLoop r (lowerChars query)) := hperm.subset hx
    exact searchShipsLoop_sound r (lowerChars query) _
      (fun y hy => searchTypesLoop_sound r (lowerChars query) y hy) x hx'
  · intro tid td htd hm
    refine (mem_sortBy byTypeName _ _).mpr ?_
    exact shipsLoopAux_sub (lowerChars query) r.ships _
      (searchTypesLoop_complete r (lowerChars query) tid td htd hm)
  · intro sid sd hsd hm hfresh
    refine (mem_sortBy byTypeName _ _).mpr ?_
    exact shipsLoopAux_complete (lowerChars query) r.ships sid sd hm _
      hsd hns hfresh

/-- C3 counterexample: type id 1 occurs with the matching name "Widget" in
both the types and the ships mappings, yet the single entry `search_types`
keeps is the one built from the types mapping (`source = types`), so the
claimed ships precedence fails as stated. -/
theorem c3_search_precedence_cex :
    search_types widgetResolver "Widget" =
      [⟨1, "Widget", some 7, none, Source.types⟩] ∧
    Source.types ≠ Source.ships ∧
    dictGet? widgetResolver.ships 1 =
      some ⟨some "Widget", some 7, some "Widgets"⟩ := by
  decide

/-- C3 witness: the amended search contract applied to the widget dataset
and the query "Widget". -/
theorem c3_search_precedence_witness :
    (dictKeys widgetResolver.types).Nodup ∧
    (dictKeys widgetResolver.ships).Nodup ∧
    ((search_types widgetResolver "Widget").Pairwise
        (fun a b => a.typeID ≠ b.typeID) ∧
      (search_types widgetResolver "Widget").Pairwise
        (fun a b => a.typeName ≤ b.typeName) ∧
      (∀ x ∈ search_types widgetResolver "Widget",
        charsSub (lowerChars "Widget") (lowerChars x.typeName) = true) ∧
      (∀ tid td, (tid, td) ∈ widgetResolver.types →
        nameMatches (lowerChars "Widget") (td.typeName.getD "") = true →
        typesEntry (tid, td) ∈ search_types widgetResolver "Widget") ∧
      (∀ sid sd, (sid, sd) ∈ widgetResolver.ships →
        nameMatches (lowerChars "Widget") (sd.typeName.getD "") = true →
        (∀ x ∈ searchTypesLoop widgetResolver (lowerChars "Widget"),
          x.typeID ≠ sid) →
        shipsEntry (sid, sd) ∈ search_types widgetResolver "Widget")) :=
  ⟨by decide, by decide,
    c3_search_precedence widgetResolver "Widget" (by decide) (by decide)⟩

/-- C6: exporting a single id that is a key of the types mapping, not a
key of the ships mapping, and not a product of any blueprint, with
dependencies disabled, yields a payload whose types section is exactly the
one original record and whose ships and blueprints sections are empty. -/
theorem c6_roundtrip (types : List (Nat × TypeRecord))
    (ships : List (Nat × ShipRecord)) (bps : List (Nat × Blueprint))
    (dg : List (Nat × DogmaBag)) (t : Nat) (td : TypeRecord)
    (hty : dictGet? types t = some td)
    (hsh : dictGet? ships t = none)
    (hprod : ∀ e ∈ bps, ∀ a ∈ e.2.activities, ∀ pr ∈ a.2.products,
      pr.typeID ≠ t) :
    export_selection (mkResolver types ships bps dg) [t] false =
      some { selected_count := 1, total_with_dependencies := 1,
             include_dependencies := false, types := [(t, td)],
             ships := [], blueprints := [] } := by
  have httb : dictGet? (mkResolver types ships bps dg).type_to_blueprint
      t = none := buildGraph_ttb_none bps t hprod
  have hsh' : dictGet? (mkResolver types ships bps dg).ships t = none :=
    hsh
  have hty' : dictGet? (mkResolver types ships bps dg).types t =
      some td := hty
  rw [export_selection]
  simp [setAdd, exportStep, shipsStepPart, typesStepPart, bpStepPart,
    hsh', hty', httb, dictSet]

/-- C6 witness: the round-trip at the concrete lone type 9 ("Pebble"),
which no blueprint of the dataset produces. -/
theorem c6_roundtrip_witness :
    dictGet? pebbleTypes 9 = some ⟨some "Pebble", none⟩ ∧
    dictGet? ([] : List (Nat × ShipRecord)) 9 = none ∧
    (∀ e ∈ [(200, bpCycleA)], ∀ a ∈ e.2.activities,
      ∀ pr ∈ a.2.products, pr.typeID ≠ 9) ∧
    export_selection (mkResolver pebbleTypes [] [(200, bpCycleA)] [])
        [9] false =
      some { selected_count := 1, total_with_dependencies := 1,
             include_dependencies := false,
             types := [(9, ⟨some "Pebble", none⟩)], ships := [],
             blueprints := [] } :=
  ⟨by decide, by decide, by decide,
    c6_roundtrip pebbleTypes [] [(200, bpCycleA)] [] 9
      ⟨some "Pebble", none⟩ (by decide) (by decide) (by decide)⟩

/-- C10: `export_selection` includes the producing blueprint of every
selected id in the payload's blueprints section even when
`include_dependencies` is false. -/
theorem c10_blueprint_always_included (r : Resolver) (ids : List Nat)
    (t bp : Nat) (p : Payload) (ht : t ∈ ids)
    (hbp : dictGet? r.type_to_blueprint t = some bp)
    (hout : export_selection r ids false = some p) :
    bp ∈ dictKeys p.blueprints := by
  have hsel : t ∈ ids.foldl setAdd [] :=
    (mem_setUnion [] ids t).mpr (Or.inr ht)
  obtain ⟨l1, l2, heq⟩ := List.append_of_mem hsel
  have key : ∀ P0 : Payload,
      (l1 ++ t :: l2).foldl
        (fun op tid => op.bind (fun p => exportStep r p tid))
        (some P0) = some p →
      bp ∈ dictKeys p.blueprints := by
    intro P0 h0
    rw [List.foldl_append, List.foldl_cons] at h0
    cases hpre : l1.foldl
        (fun op tid => op.bind (fun p => exportStep r p tid))
        (some P0) with
    | none =>
      rw [hpre] at h0
      simp only [Option.none_bind] at h0
      rw [expFold_none] at h0
      cases h0
    | some p1 =>
      rw [hpre] at h0
      simp only [Option.some_bind] at h0
      cases hstep : exportStep r p1 t with
      | none =>
        rw [hstep] at h0
        rw [expFold_none] at h0
        cases h0
      | some p2 =>
        rw [hstep] at h0
        exact expFold_bp_keys_mono r l2 p2 p h0
          (exportStep_adds_bp r p1 t p2 bp hbp hstep)
  refine key
    { selected_count := ids.length,
      total_with_dependencies := (ids.foldl setAdd []).length,
      include_dependencies := false, types := [], ships := [],
      blueprints := [] } ?_
  rw [← heq]
  exact hout

/-- C10 witness: exporting the selection [100] without dependencies still
carries blueprint 200, the producer of type 100. -/
theorem c10_blueprint_always_included_witness :
    (100 : Nat) ∈ [100] ∧
    dictGet? cycleResolver.type_to_blueprint 100 = some 200 ∧
    export_selection cycleResolver [100] false =
      some { selected_count := 1, total_with_dependencies := 1,
             include_dependencies := false,
             types := [(100, ⟨some "Widget", some 0⟩)], ships := [],
             blueprints := [(200, bpCycleA)] } ∧
    200 ∈ dictKeys
      ({ selected_count := 1, total_with_dependencies := 1,
         include_dependencies := false,
         types := [(100, ⟨some "Widget", some 0⟩)], ships := [],
         blueprints := [(200, bpCycleA)] } : Payload).blueprints :=
  ⟨by decide, by decide, by decide,
    c10_blueprint_always_included cycleResolver [100] 100 200 _
      (by decide) (by decide) (by decide)⟩
